import Mathlib

/-!
Verification of the Critical CSS Selection Engine (crit-css-extractor-backend).

Shallow embedding of `src/lib/css-parser.js` (class CSSParser) and
`src/lib/extractor.js` (combineMobileDesktopCSS and the constants module).
The external css-tree syntax tree is modelled as a closed tagged union over
the node kinds the adapter discriminates on (duck-typed property-fallback
chains such as `child.name?.name || child.name || ''` are flattened to the
already-extracted string, and nullable `children` fields are modelled by
dedicated constructors).  JavaScript strings become `String`, JS `Set`/`Map`
become insertion-ordered lists, and JS truthiness of the optional
`mediaQuery` field (absent vs the empty string) is modelled explicitly.
-/

namespace CritCSS

/-- Model of JavaScript `haystack.includes(needle)` on lists of characters. -/
def charsContains : List Char → List Char → Bool
  | [], needle => needle.isEmpty
  | c :: t, needle => needle.isPrefixOf (c :: t) || charsContains t needle

/-- JavaScript `s.includes(sub)`. -/
def jsIncludes (s sub : String) : Bool :=
  charsContains s.toList sub.toList

/-- JavaScript `s.trim()`: strip leading and trailing whitespace. -/
def jsTrim (s : String) : String :=
  (((s.toList.dropWhile Char.isWhitespace).reverse.dropWhile Char.isWhitespace).reverse).asString

/-- JavaScript `s.toLowerCase()` (ASCII case mapping). -/
def jsToLower (s : String) : String :=
  (s.toList.map Char.toLower).asString

/-- JavaScript `s.startsWith(p)`. -/
def jsStartsWith (s p : String) : Bool :=
  p.toList.isPrefixOf s.toList

/-- JavaScript `s.substring(1)`. -/
def jsDropOne (s : String) : String :=
  (s.toList.drop 1).asString

/-- JavaScript `s.split(',')` on a list of characters. -/
def splitCommaChars : List Char → List (List Char)
  | [] => [[]]
  | ',' :: t => [] :: splitCommaChars t
  | c :: t =>
    match splitCommaChars t with
    | [] => [[c]]
    | h :: r => (c :: h) :: r

/-- JavaScript `s.split(',')`. -/
def jsSplitComma (s : String) : List String :=
  (splitCommaChars s.toList).map List.asString

/-- Declaration record from the rule model: `{ property, value, important }`. -/
structure Declaration where
  property : String
  value : String
  important : Bool
deriving DecidableEq, Repr

/-- Rule record: `{ selector, declarations, mediaQuery }`; `mediaQuery` is
`undefined` (`none`) or a string (possibly empty, which JS treats as falsy). -/
structure Rule where
  selector : String
  declarations : List Declaration
  mediaQuery : Option String
deriving DecidableEq, Repr

/-- CSSParser constructor options (all default to `false`). -/
structure ParserOptions where
  includeShadows : Bool
  includeAnimations : Bool
  includeTransitions : Bool
  includeHoverStates : Bool
deriving DecidableEq, Repr

/-- Options of `new CSSParser()` with no argument. -/
def defaultOptions : ParserOptions := ⟨false, false, false, false⟩

/-- JS truthiness of the `mediaQuery` field: `undefined` and `''` are falsy. -/
def mqTruthy : Option String → Bool
  | none => false
  | some s => !(s == "")

/-- The expression `rule.mediaQuery || ''`. -/
def mqOrEmpty : Option String → String
  | none => ""
  | some s => s

/-- CSS_CONSTANTS.EXCLUDED_SELECTORS from src/lib/extractor.js (constants). -/
def EXCLUDED_SELECTORS : List String :=
  [":hover", ":focus", ":active", ":visited", ":link",
   "::-webkit-scrollbar", "::-moz-scrollbar"]

/-- CSS_CONSTANTS.ALLOWED_PROPERTIES from src/lib/extractor.js (constants). -/
def ALLOWED_PROPERTIES : List String :=
  ["display", "position", "top", "left", "right", "bottom", "z-index",
   "flex", "flex-direction", "flex-wrap", "flex-flow", "justify-content",
   "align-items", "align-content", "grid", "grid-template-columns",
   "grid-template-rows", "grid-template-areas", "grid-auto-columns",
   "grid-auto-rows", "grid-auto-flow", "width", "height", "min-width",
   "min-height", "max-width", "max-height", "margin", "margin-top",
   "margin-left", "margin-right", "margin-bottom", "padding", "padding-top",
   "padding-left", "padding-right", "padding-bottom",
   "font-family", "font-size", "font-weight", "font-style", "font-variant",
   "line-height", "letter-spacing", "word-spacing", "text-align",
   "text-decoration", "text-transform", "text-indent", "white-space", "color",
   "background", "background-color", "background-image", "background-repeat",
   "background-position", "background-size", "background-attachment",
   "border", "border-color", "border-style", "border-width", "border-top",
   "border-left", "border-right", "border-bottom", "border-radius",
   "opacity", "visibility",
   "overflow", "overflow-x", "overflow-y", "transform", "transform-origin",
   "aspect-ratio", "object-fit", "object-position"]

/-- shouldExcludeSelector (css-parser.js lines 289-303). -/
def shouldExcludeSelector (o : ParserOptions) (selector : String) : Bool :=
  EXCLUDED_SELECTORS.any (fun excluded => jsIncludes selector excluded)
  || (!o.includeHoverStates && jsIncludes selector ":hover")

/-- shouldIncludeProperty (css-parser.js lines 305-341). -/
def shouldIncludeProperty (o : ParserOptions) (property value : String) : Bool :=
  if !(ALLOWED_PROPERTIES.contains property) then false
  else if !o.includeShadows
          && (jsIncludes property "shadow" || jsIncludes property "box-shadow") then false
  else if !o.includeAnimations
          && (jsIncludes property "animation" || jsIncludes property "keyframes") then false
  else if !o.includeTransitions && jsIncludes property "transition" then false
  else if value == "none" || value == "initial" || value == "unset" then false
  else true

/-! ### Value reconstruction (generateValue, css-parser.js lines 236-287) -/

mutual
/-- Closed model of css-tree value nodes as discriminated by generateValue.
`other` is a node of unlisted type carrying children; `leaf` one without. -/
inductive CTValue where
  | raw (value : String)
  | val (children : CTValues)
  | ident (name : String)
  | num (value : String)
  | str (value : String)
  | dim (value : String) (unit : String)
  | percentage (value : String)
  | hash (value : String)
  | fn (name : String) (children : CTValues)
  | url (value : String)
  | op (value : String)
  | ws
  | comma
  | other (children : CTValues)
  | leaf
inductive CTValues where
  | nil
  | cons (head : CTValue) (tail : CTValues)
end

mutual
/-- generateValue: renders a css-tree value node back to text. -/
def generateValue : CTValue → String
  | .raw v => jsTrim v
  | .val cs => String.join (genValueList cs)
  | .ident n => n
  | .num v => if v == "" then "0" else v
  | .str v => "\"" ++ v ++ "\""
  | .dim v u => v ++ u
  | .percentage v => v ++ "%"
  | .hash v => "#" ++ v
  | .fn n cs => n ++ "(" ++ String.join (genValueList cs) ++ ")"
  | .url v => "url(" ++ v ++ ")"
  | .op v => v
  | .ws => " "
  | .comma => ", "
  | .other cs => String.join (genValueList cs)
  | .leaf => ""
/-- Renders each child value node in order (the loops inside generateValue). -/
def genValueList : CTValues → List String
  | .nil => []
  | .cons c cs => generateValue c :: genValueList cs
end

/-- The call `generateValue(child.value)` guarded by `if (!valueNode) return ''`. -/
def genValueOpt : Option CTValue → String
  | none => ""
  | some v => generateValue v

/-! ### Selector reconstruction (generateSelector, css-parser.js lines 96-154) -/

mutual
/-- Closed model of css-tree selector/prelude nodes.  `pseudoClass` models a
PseudoClassSelector with `children` null, `pseudoClassArgs` one with a child
list; `otherSel` is any unhandled node kind. -/
inductive CTSel where
  | raw (value : String)
  | selectorList (children : CTSels)
  | compound (children : CTSels)
  | typeSel (name : String)
  | classSel (name : String)
  | idSel (name : String)
  | attrSel (attrName : String) (matcher : String) (attrValue : String)
  | pseudoClass (name : String)
  | pseudoClassArgs (name : String) (children : CTSels)
  | pseudoElement (name : String)
  | combinator (name : String)
  | ws
  | otherSel
inductive CTSels where
  | nil
  | cons (head : CTSel) (tail : CTSels)
end

mutual
/-- generateSelector: reconstructs the selector text of a prelude node. -/
def generateSelector : CTSel → String
  | .raw v => jsTrim v
  | .selectorList cs => String.intercalate ", " (selListStrings cs)
  | .compound cs => String.join (selParts cs)
  | _ => ""
/-- Collects the non-empty reconstructed selectors of a SelectorList. -/
def selListStrings : CTSels → List String
  | .nil => []
  | .cons c cs =>
    let s := generateSelector c
    if s == "" then selListStrings cs else s :: selListStrings cs
/-- Renders the parts of a Selector node (the if/else chain over child types);
children of unhandled kinds push nothing. -/
def selParts : CTSels → List String
  | .nil => []
  | .cons c cs =>
    match c with
    | .typeSel n => n :: selParts cs
    | .classSel n => ("." ++ n) :: selParts cs
    | .idSel n => ("#" ++ n) :: selParts cs
    | .attrSel a m v =>
        (if !(m == "") && !(v == "") then "[" ++ a ++ m ++ "\"" ++ v ++ "\"]"
         else "[" ++ a ++ "]") :: selParts cs
    | .pseudoClass n => (":" ++ n) :: selParts cs
    | .pseudoClassArgs n ch =>
        (let strs := pseudoArgStrings ch
         if strs.length > 0 then ":" ++ n ++ "(" ++ String.join strs ++ ")"
         else ":" ++ n) :: selParts cs
    | .pseudoElement n => ("::" ++ n) :: selParts cs
    | .combinator n =>
        (let v := if n == "" then " " else n
         if v == " " then " " else " " ++ v ++ " ") :: selParts cs
    | .ws => " " :: selParts cs
    | _ => selParts cs
/-- Child selectors of a PseudoClassSelector, pushed unconditionally. -/
def pseudoArgStrings : CTSels → List String
  | .nil => []
  | .cons c cs => generateSelector c :: pseudoArgStrings cs
end

/-! ### Media query reconstruction (generateMediaQuery, css-parser.js 156-209) -/

mutual
/-- Closed model of css-tree media-query prelude nodes.  `featureVal` models a
MediaFeature with a value, `feature` one without; `other` is a generic node
with children and `leaf` one without. -/
inductive CTMedia where
  | raw (value : String)
  | mqList (children : CTMedias)
  | mq (children : CTMedias)
  | featureVal (name : String) (value : CTMedia)
  | feature (name : String)
  | ident (name : String)
  | num (value : String)
  | dim (value : String) (unit : String)
  | ratioNode (left : String) (right : String)
  | op (value : String)
  | other (children : CTMedias)
  | leaf
inductive CTMedias where
  | nil
  | cons (head : CTMedia) (tail : CTMedias)
end

/-- The `.filter(Boolean)` step on a list of strings. -/
def filterBool (l : List String) : List String :=
  l.filter (fun s => !(s == ""))

mutual
/-- generateMediaQuery: renders an at-rule prelude to media-query text. -/
def generateMediaQuery : CTMedia → String
  | .raw v => jsTrim v
  | .mqList cs => String.intercalate ", " (filterBool (genMediaList cs))
  | .mq cs => String.intercalate " " (filterBool (genMediaList cs))
  | .featureVal n v => "(" ++ n ++ ": " ++ generateMediaQuery v ++ ")"
  | .feature n => "(" ++ n ++ ")"
  | .ident n => n
  | .num v => v
  | .dim v u => v ++ u
  | .ratioNode l r => l ++ "/" ++ r
  | .op v => v
  | .other cs => String.intercalate " " (filterBool (genMediaList cs))
  | .leaf => ""
/-- Renders each media-prelude child in order. -/
def genMediaList : CTMedias → List String
  | .nil => []
  | .cons c cs => generateMediaQuery c :: genMediaList cs
end

/-- `generateMediaQuery(node.prelude)` with the `if (!prelude) return ''` guard. -/
def genMediaOpt : Option CTMedia → String
  | none => ""
  | some m => generateMediaQuery m

/-! ### The AST walk (parseCSS, css-parser.js lines 17-351) -/

mutual
/-- Closed model of the css-tree nodes the walker discriminates on: style
rules, at-rules, declarations, and any other node (with nullable children). -/
inductive CTNode where
  | rule (prelude : Option CTSel) (blk : CTBlock)
  | atrule (name : String) (prelude : Option CTMedia) (blk : CTBlock)
  | decl (property : String) (value : Option CTValue) (important : Bool)
  | node (children : CTBlock)
inductive CTBlock where
  | noBlock
  | block (children : CTForest)
inductive CTForest where
  | nil
  | cons (head : CTNode) (tail : CTForest)
end

/-- processDeclarations (css-parser.js lines 211-234): admits the Declaration
children of a block, in order. -/
def processDeclarations (o : ParserOptions) : CTForest → List Declaration
  | .nil => []
  | .cons (.decl property value important) cs =>
    let v := genValueOpt value
    if shouldIncludeProperty o property v then
      ⟨property, v, important⟩ :: processDeclarations o cs
    else processDeclarations o cs
  | .cons _ cs => processDeclarations o cs

/-- processRule (css-parser.js lines 67-81). -/
def processRule (o : ParserOptions) (mq : Option String)
    (prelude : Option CTSel) (blk : CTBlock) : Option Rule :=
  match prelude, blk with
  | some prel, .block cs =>
    let selector := generateSelector prel
    if selector == "" || shouldExcludeSelector o selector then none
    else
      let declarations := processDeclarations o cs
      if declarations.length == 0 then none
      else some ⟨selector, declarations, mq⟩
  | _, _ => none

/-- processFontFace (css-parser.js lines 83-94). -/
def processFontFace (o : ParserOptions) (blk : CTBlock) : Option Rule :=
  match blk with
  | .block cs =>
    let declarations := processDeclarations o cs
    if declarations.length == 0 then none
    else some ⟨"@font-face", declarations, none⟩
  | .noBlock => none

mutual
/-- The walk closure (css-parser.js lines 36-65), returning the rules pushed
while visiting one node. -/
def walkNode (o : ParserOptions) (mq : Option String) : CTNode → List Rule
  | .rule prelude blk =>
    match processRule o mq prelude blk with
    | some r => [r]
    | none => []
  | .atrule name prelude blk =>
    if name == "media" then
      match blk with
      | .block cs => walkForest o (some (genMediaOpt prelude)) cs
      | .noBlock => []
    else if name == "font-face" then
      match processFontFace o blk with
      | some r => [r]
      | none => []
    else []
  | .decl _ _ _ => []
  | .node blk =>
    match blk with
    | .block cs => walkForest o mq cs
    | .noBlock => []
/-- Walking each child of a node in order. -/
def walkForest (o : ParserOptions) (mq : Option String) : CTForest → List Rule
  | .nil => []
  | .cons c cs => walkNode o mq c ++ walkForest o mq cs
end

/-- parseCSS applied to the syntax tree produced by the external parser
(`walk(ast)` with no media query, css-parser.js line 344). -/
def parseCSS (o : ParserOptions) (ast : CTNode) : List Rule :=
  walkNode o none ast

/-- parseCSS at the string level (css-parser.js lines 17-32 and 344-350): the
outcome of the external `css-tree.parse` call is an input; a thrown parse
error (`Except.error`) is caught and degrades to the empty rule list, and
empty or whitespace-only CSS short-circuits to the empty rule list. -/
def parseCSSstr (o : ParserOptions) (css : String)
    (ext : Except String CTNode) : List Rule :=
  if css == "" || jsTrim css == "" then []
  else
    match ext with
    | .error _ => []
    | .ok ast => parseCSS o ast

/-! ### Selector matcher (filterCSSRules / matchesSelector, css-parser.js 356-464) -/

/-- Character class `[a-zA-Z0-9_-]` of the id/class extraction patterns. -/
def isWordChar (c : Char) : Bool :=
  c.isAlpha || c.isDigit || c == '_' || c == '-'

/-- Longest leading run of `[a-zA-Z0-9_-]` characters. -/
def takeWordChars : List Char → List Char
  | [] => []
  | c :: t => if isWordChar c then c :: takeWordChars t else []

/-- Longest leading run of `[a-zA-Z0-9]` characters. -/
def takeAlnum : List Char → List Char
  | [] => []
  | c :: t => if c.isAlphanum then c :: takeAlnum t else []

/-- First match of the pattern hash-sign followed by one or more word
characters (the id extraction regex), returning the captured name. -/
def firstHashMatch : List Char → Option String
  | [] => none
  | '#' :: t =>
    let w := takeWordChars t
    if w.isEmpty then firstHashMatch t else some w.asString
  | _ :: t => firstHashMatch t

/-- All matches of the pattern dot followed by one or more word characters
(the global class extraction regex), captured names in order.  Scanning every
position is equivalent to the regex's non-overlapping scan because a matched
run contains no dot. -/
def classTokens : List Char → List String
  | [] => []
  | '.' :: t =>
    let w := takeWordChars t
    if w.isEmpty then classTokens t else w.asString :: classTokens t
  | _ :: t => classTokens t

/-- Is the character one of the combinator class (whitespace, gt, plus, tilde)
of the tag extraction regex. -/
def isCombChar (c : Char) : Bool :=
  c.isWhitespace || c == '>' || c == '+' || c == '~'

/-- Matches of a combinator-class character followed by a letter and then
letters/digits, returning the tag runs; a matched run is alphanumeric so no
new match can begin inside it, making position-by-position scanning
equivalent to the regex's consuming scan. -/
def tagTokensAux : List Char → List String
  | [] => []
  | c :: t =>
    if isCombChar c then
      match t with
      | [] => []
      | d :: t' =>
        if d.isAlpha then (d :: takeAlnum t').asString :: tagTokensAux t
        else tagTokensAux t
    else tagTokensAux t

/-- All matches of the tag extraction regex (anchored alternative at position
0 first, then combinator-prefixed ones), already stripped to the tag run. -/
def tagTokens : List Char → List String
  | [] => []
  | c :: t =>
    if c.isAlpha then (c :: takeAlnum t).asString :: tagTokensAux t
    else tagTokensAux (c :: t)

/-- matchesSelector (css-parser.js lines 416-464): id check, then classes,
then tag tokens, then the leading-tag check. -/
def matchesSelector (tagSelectors classSelectors idSelectors : List String)
    (cssSelector : String) : Bool :=
  let cl := cssSelector.toList
  (match firstHashMatch cl with
   | some idName => idSelectors.contains idName
   | none => false)
  || (classTokens cl).any (fun c => classSelectors.contains c)
  || (tagTokens cl).any (fun t => tagSelectors.contains (jsToLower t))
  || (match cl with
      | c :: t => c.isAlpha && tagSelectors.contains (jsToLower (c :: takeAlnum t).asString)
      | [] => false)

/-- Adding to a JS `Set` of strings (membership is all that is consumed). -/
def addUnique (l : List String) (x : String) : List String :=
  if l.contains x then l else l ++ [x]

/-- The signal-set building loop of filterCSSRules (css-parser.js 360-381):
produces (tagSelectors, classSelectors, idSelectors). -/
def buildSignalsAux :
    List String × List String × List String → List String →
    List String × List String × List String
  | acc, [] => acc
  | (tags, classes, ids), sel :: rest =>
    let step :=
      if jsStartsWith sel "#" then (tags, classes, addUnique ids (jsDropOne sel))
      else if jsStartsWith sel "." then (tags, addUnique classes (jsDropOne sel), ids)
      else if !(jsIncludes sel ".") && !(jsIncludes sel "#") then
        (addUnique tags (jsToLower sel), classes, ids)
      else (tags, classes, ids)
    let classes2 := (classTokens sel.toList).foldl addUnique step.2.1
    buildSignalsAux (step.1, classes2, step.2.2) rest

/-- The per-rule predicate of `rules.filter` in filterCSSRules (383-410). -/
def keepRule (tags classes ids : List String) (rule : Rule) : Bool :=
  if rule.selector == "@font-face" then true
  else if rule.selector == ":root" || rule.selector == "html"
          || rule.selector == "body" then true
  else if rule.selector == "*" then true
  else ((jsSplitComma rule.selector).map jsTrim).any
        (matchesSelector tags classes ids)

/-- filterCSSRules (css-parser.js lines 356-411); `aboveFoldSelectors` is the
iteration order of the caller's `Set`. -/
def filterCSSRules (rules : List Rule) (aboveFoldSelectors : List String) :
    List Rule :=
  let s := buildSignalsAux ([], [], []) aboveFoldSelectors
  rules.filter (keepRule s.1 s.2.1 s.2.2)

/-! ### Serializer (generateCSS, css-parser.js lines 469-496) -/

/-- One declaration line emitted by generateCSS. -/
def renderDeclaration (d : Declaration) : String :=
  "  " ++ d.property ++ ": " ++ d.value
  ++ (if d.important then " !important" else "") ++ ";\n"

/-- The `ruleCSS` string built for one rule by generateCSS. -/
def renderRule (r : Rule) : String :=
  (if mqTruthy r.mediaQuery then "@media " ++ mqOrEmpty r.mediaQuery ++ " \x7b\n" else "")
  ++ r.selector ++ " \x7b\n"
  ++ String.join (r.declarations.map renderDeclaration)
  ++ "\x7d\n"
  ++ (if mqTruthy r.mediaQuery then "\x7d\n" else "")

/-- generateCSS: rule blocks joined by a blank line. -/
def generateCSS (rules : List Rule) : String :=
  String.intercalate "\n" (rules.map renderRule)

/-! ### Rule optimizer (deduplicateRules / deduplicateDeclarations, 501-543) -/

/-- One iteration of the declaration-dedup loop over the insertion-ordered
`Map` (modelled as a list of declarations keyed by `property`): a new key is
appended, an existing key is overwritten in place only when the new
declaration is important and the kept one is not. -/
def dedupStep (acc : List Declaration) (d : Declaration) : List Declaration :=
  match acc.find? (fun e => e.property == d.property) with
  | none => acc ++ [d]
  | some existing =>
    if d.important && !existing.important then
      acc.map (fun e => if e.property == d.property then d else e)
    else acc

/-- deduplicateDeclarations (css-parser.js lines 529-543). -/
def deduplicateDeclarations (declarations : List Declaration) : List Declaration :=
  declarations.foldl dedupStep []

/-- The composite key of deduplicateRules. -/
def ruleKey (r : Rule) : String :=
  r.selector ++ "|" ++ mqOrEmpty r.mediaQuery

/-- The loop of deduplicateRules over the `seen` key set. -/
def dedupRulesAux (seen : List String) : List Rule → List Rule
  | [] => []
  | r :: rs =>
    if seen.contains (ruleKey r) then dedupRulesAux seen rs
    else { r with declarations := deduplicateDeclarations r.declarations }
         :: dedupRulesAux (ruleKey r :: seen) rs

/-- deduplicateRules (css-parser.js lines 501-524). -/
def deduplicateRules (rules : List Rule) : List Rule :=
  dedupRulesAux [] rules

/-! ### Viewport combiner (combineMobileDesktopCSS, extractor.js lines 190-239) -/

/-- The declarations of the desktop rule that differ from or are absent in
the matching mobile rule (extractor.js lines 212-219). -/
def declDiff (desktopDecls mobileDecls : List Declaration) : List Declaration :=
  desktopDecls.filter (fun decl =>
    match mobileDecls.find? (fun md => md.property == decl.property) with
    | none => true
    | some md => !(md.value == decl.value))

/-- The predicate of the `combinedRules.some` / `combinedRules.find` calls:
same selector and a falsy `mediaQuery`. -/
def unconditionalMatch (d : Rule) (m : Rule) : Bool :=
  m.selector == d.selector && !(mqTruthy m.mediaQuery)

/-- The desktop-rule loop of combineMobileDesktopCSS, carrying the growing
`combinedRules` list. -/
def combineAux (combined : List Rule) : List Rule → List Rule
  | [] => combined
  | d :: ds =>
    if combined.any (unconditionalMatch d) then
      match combined.find? (unconditionalMatch d) with
      | some m =>
        if (declDiff d.declarations m.declarations).length > 0 then
          combineAux (combined ++
            [{ d with declarations := declDiff d.declarations m.declarations,
                      mediaQuery := some "(min-width: 768px)" }]) ds
        else combineAux combined ds
      | none => combineAux combined ds
    else combineAux (combined ++ [{ d with mediaQuery := some "(min-width: 768px)" }]) ds

/-- combineMobileDesktopCSS at the rule level: mobile rules are the base. -/
def combineRules (mobileRules desktopRules : List Rule) : List Rule :=
  combineAux mobileRules desktopRules

/-- combineMobileDesktopCSS (extractor.js lines 190-239): both inputs are
re-parsed (through the external parser, here the already-tokenized trees) and
the combined rule set is serialized. -/
def combineMobileDesktopCSS (o : ParserOptions) (mobileAst desktopAst : CTNode) :
    String :=
  generateCSS (combineRules (parseCSS o mobileAst) (parseCSS o desktopAst))

/-! ### Specification-side definitions (worded from the spec, for refinement) -/

/-- The property names of a declaration list, in order. -/
def propsOf (l : List Declaration) : List String :=
  l.map Declaration.property

/-- Recording the property of one declaration if not seen before. -/
def addProp (ps : List String) (d : Declaration) : List String :=
  if ps.contains d.property then ps else ps ++ [d.property]

/-- Worded from the spec (4.3): result order is the first-occurrence order of
each property. -/
def firstProps (ds : List Declaration) : List String :=
  ds.foldl addProp []

/-- Worded from the spec (4.3): the existing entry is replaced by the new one
only if the new one is important and the existing one is not; otherwise the
new occurrence is ignored. -/
def specUpd (cur : Option Declaration) (d : Declaration) : Option Declaration :=
  match cur with
  | none => some d
  | some c => if d.important && !c.important then some d else some c

/-- The declaration kept for property `p`, per the spec's replacement rule,
starting from a given already-kept declaration. -/
def keptFrom (init : Option Declaration) (ds : List Declaration) (p : String) :
    Option Declaration :=
  (ds.filter (fun d => d.property == p)).foldl specUpd init

/-- The declaration the spec says survives for property `p`. -/
def specKept (ds : List Declaration) (p : String) : Option Declaration :=
  keptFrom none ds p

/-- Worded from the spec (4.5) and claim C3: what the combiner appends for one
desktop rule, given the mobile base.  With an unconditional mobile counterpart
it appends exactly the differing declarations under `(min-width: 768px)` (or
nothing when none differ); otherwise the desktop rule forced under
`(min-width: 768px)`. -/
def specDesktopDelta (mobileRules : List Rule) (d : Rule) : List Rule :=
  match mobileRules.find? (unconditionalMatch d) with
  | some m =>
    if (declDiff d.declarations m.declarations).isEmpty then []
    else [{ d with declarations := declDiff d.declarations m.declarations,
                   mediaQuery := some "(min-width: 768px)" }]
  | none => [{ d with mediaQuery := some "(min-width: 768px)" }]

/-! ### Concrete syntax trees (as css-tree produces them) for examples -/

/-- The style-rule node of `".x{color:<c>}"`. -/
def ruleNodeX (c : String) : CTNode :=
  .rule (some (.selectorList (.cons (.compound (.cons (.classSel "x") .nil)) .nil)))
    (.block (.cons (.decl "color" (some (.val (.cons (.ident c) .nil))) false) .nil))

/-- The syntax tree of `".x{color:red}"`. -/
def astXRed : CTNode := .node (.block (.cons (ruleNodeX "red") .nil))

/-- The syntax tree of `".x{color:blue}"`. -/
def astXBlue : CTNode := .node (.block (.cons (ruleNodeX "blue") .nil))

/-- The syntax tree of `"a:hover{color:red}"`. -/
def astHoverRed : CTNode :=
  .node (.block (.cons
    (.rule (some (.selectorList (.cons
        (.compound (.cons (.typeSel "a") (.cons (.pseudoClass "hover") .nil))) .nil)))
      (.block (.cons (.decl "color" (some (.val (.cons (.ident "red") .nil))) false) .nil)))
    .nil))

/-- The syntax tree of `"@supports (display:flex){.x{color:red}}"`: the style
rule sits inside an at-rule named `supports`. -/
def astSupportsNested : CTNode :=
  .node (.block (.cons
    (.atrule "supports" none (.block (.cons (ruleNodeX "red") .nil))) .nil))

/-! ## Helper lemmas -/

theorem contains_iff_memStr {l : List String} {a : String} :
    l.contains a = true ↔ a ∈ l := by
  simp [List.contains, List.elem_iff]

/-- No allow-listed property contains any of the option-gated substrings, so
the shadow/animation/transition gates in shouldIncludeProperty never fire. -/
theorem allow_list_no_gated :
    ALLOWED_PROPERTIES.all (fun p =>
      !(jsIncludes p "shadow" || jsIncludes p "box-shadow"
        || jsIncludes p "animation" || jsIncludes p "keyframes"
        || jsIncludes p "transition")) = true := by decide

theorem shouldIncludeProperty_opts (o o' : ParserOptions) (p v : String) :
    shouldIncludeProperty o p v = shouldIncludeProperty o' p v := by
  unfold shouldIncludeProperty
  cases hc : ALLOWED_PROPERTIES.contains p with
  | false => rfl
  | true =>
    have hp : p ∈ ALLOWED_PROPERTIES := by simpa using hc
    have hg := List.all_eq_true.mp allow_list_no_gated p hp
    simp only [Bool.not_eq_true', Bool.or_eq_false_iff] at hg
    obtain ⟨⟨⟨⟨h1, h2⟩, h3⟩, h4⟩, h5⟩ := hg
    simp [hc, h1, h2, h3, h4, h5]

theorem processDeclarations_opts (o o' : ParserOptions) :
    ∀ f, processDeclarations o f = processDeclarations o' f
  | .nil => rfl
  | .cons c cs => by
    cases c with
    | decl p v imp =>
      simp only [processDeclarations, shouldIncludeProperty_opts o o' p (genValueOpt v),
        processDeclarations_opts o o' cs]
    | rule p b => simp only [processDeclarations, processDeclarations_opts o o' cs]
    | atrule n p b => simp only [processDeclarations, processDeclarations_opts o o' cs]
    | node b => simp only [processDeclarations, processDeclarations_opts o o' cs]

mutual
theorem walkNode_opts (o o' : ParserOptions) (h : o.includeHoverStates = o'.includeHoverStates)
    (mq : Option String) : ∀ n, walkNode o mq n = walkNode o' mq n
  | .rule p b => by
    have hex : ∀ s, shouldExcludeSelector o s = shouldExcludeSelector o' s := by
      intro s; simp [shouldExcludeSelector, h]
    cases p with
    | none => rfl
    | some prel =>
      cases b with
      | noBlock => rfl
      | block cs =>
        simp only [walkNode, processRule, hex, processDeclarations_opts o o' cs]
  | .atrule n p b => by
    cases b with
    | noBlock => rfl
    | block cs =>
      simp only [walkNode, processFontFace, processDeclarations_opts o o' cs,
        walkForest_opts o o' h (some (genMediaOpt p)) cs]
  | .decl p v i => rfl
  | .node b => by
    cases b with
    | noBlock => rfl
    | block cs => simp only [walkNode, walkForest_opts o o' h mq cs]
theorem walkForest_opts (o o' : ParserOptions) (h : o.includeHoverStates = o'.includeHoverStates)
    (mq : Option String) : ∀ f, walkForest o mq f = walkForest o' mq f
  | .nil => rfl
  | .cons c cs => by
    simp only [walkForest, walkNode_opts o o' h mq c, walkForest_opts o o' h mq cs]
end

/-! ## Rule-optimizer and combiner lemmas -/


theorem dedupStep_none {acc : List Declaration} {d : Declaration}
    (h : acc.find? (fun e => e.property == d.property) = none) :
    dedupStep acc d = acc ++ [d] := by
  unfold dedupStep
  rw [h]

theorem dedupStep_replace {acc : List Declaration} {d existing : Declaration}
    (h : acc.find? (fun e => e.property == d.property) = some existing)
    (hi : (d.important && !existing.important) = true) :
    dedupStep acc d = acc.map (fun e => if e.property == d.property then d else e) := by
  unfold dedupStep
  rw [h]
  simp [hi]

theorem dedupStep_keep {acc : List Declaration} {d existing : Declaration}
    (h : acc.find? (fun e => e.property == d.property) = some existing)
    (hi : (d.important && !existing.important) = false) :
    dedupStep acc d = acc := by
  unfold dedupStep
  rw [h]
  simp [hi]

theorem find?_map_propPreserving (acc : List Declaration) (d : Declaration) (q : String) :
    (acc.map (fun e => if e.property == d.property then d else e)).find?
        (fun e => e.property == q)
      = (acc.find? (fun e => e.property == q)).map
          (fun e => if e.property == d.property then d else e) := by
  rw [List.find?_map]
  have hfun : ((fun e : Declaration => e.property == q)
        ∘ fun e => if e.property == d.property then d else e)
      = (fun e : Declaration => e.property == q) := by
    funext e
    by_cases h : (e.property == d.property) = true
    · simp [Function.comp, h, beq_iff_eq.mp h]
    · simp [Function.comp, h]
  rw [hfun]

theorem propsOf_dedupStep (acc : List Declaration) (d : Declaration) :
    propsOf (dedupStep acc d) = addProp (propsOf acc) d := by
  cases hf : acc.find? (fun e => e.property == d.property) with
  | none =>
    have hnc : (propsOf acc).contains d.property = false := by
      apply Bool.eq_false_iff.mpr
      intro hc
      obtain ⟨e, he, heq⟩ := List.mem_map.mp (contains_iff_memStr.mp hc)
      exact (List.find?_eq_none.mp hf e he) (by simp [heq])
    rw [dedupStep_none hf]
    unfold addProp
    rw [hnc]
    simp [propsOf]
  | some existing =>
    have hpd := List.find?_some hf
    have hc : (propsOf acc).contains d.property = true :=
      contains_iff_memStr.mpr (List.mem_map.mpr ⟨existing,
        List.mem_of_find?_eq_some hf, beq_iff_eq.mp hpd⟩)
    have haddp : addProp (propsOf acc) d = propsOf acc := by
      unfold addProp
      rw [hc]
      rfl
    rw [haddp]
    by_cases hi : (d.important && !existing.important) = true
    · rw [dedupStep_replace hf hi]
      have hrepl : (Declaration.property ∘ fun e =>
          if e.property == d.property then d else e) = Declaration.property := by
        funext e
        by_cases h : (e.property == d.property) = true
        · simp [Function.comp, h, beq_iff_eq.mp h]
        · simp [Function.comp, h]
      simp only [propsOf, List.map_map, hrepl]
    · rw [dedupStep_keep hf (Bool.not_eq_true _ ▸ hi)]

theorem propsOf_foldl_dedupStep : ∀ (ds acc : List Declaration),
    propsOf (ds.foldl dedupStep acc) = ds.foldl addProp (propsOf acc)
  | [], _ => rfl
  | d :: ds, acc => by
    simp only [List.foldl_cons, propsOf_foldl_dedupStep ds (dedupStep acc d),
      propsOf_dedupStep]

theorem nodup_addProp {ps : List String} (d : Declaration) (h : ps.Nodup) :
    (addProp ps d).Nodup := by
  unfold addProp
  cases hc : ps.contains d.property with
  | true => exact h
  | false =>
    have hnm : d.property ∉ ps := fun hm => by
      rw [contains_iff_memStr.mpr hm] at hc
      cases hc
    simp [List.nodup_append, h, hnm]

theorem nodup_foldl_addProp : ∀ (ds : List Declaration) (ps : List String),
    ps.Nodup → (ds.foldl addProp ps).Nodup
  | [], _, h => h
  | d :: ds, ps, h => nodup_foldl_addProp ds (addProp ps d) (nodup_addProp d h)

theorem find?_dedupStep (acc : List Declaration) (d : Declaration) (q : String) :
    (dedupStep acc d).find? (fun e => e.property == q)
    = if d.property = q
        then specUpd (acc.find? (fun e => e.property == q)) d
        else acc.find? (fun e => e.property == q) := by
  cases hf : acc.find? (fun e => e.property == d.property) with
  | none =>
    rw [dedupStep_none hf, List.find?_append]
    by_cases hq : d.property = q
    · subst hq
      rw [if_pos rfl, hf]
      simp [specUpd, List.find?]
    · rw [if_neg hq]
      have hd : List.find? (fun e => e.property == q) [d] = none := by
        simp [List.find?, beq_eq_false_iff_ne.mpr hq]
      rw [hd]
      cases acc.find? (fun e => e.property == q) <;> rfl
  | some existing =>
    have hpd := List.find?_some hf
    by_cases hi : (d.important && !existing.important) = true
    · rw [dedupStep_replace hf hi, find?_map_propPreserving]
      by_cases hq : d.property = q
      · subst hq
        rw [if_pos rfl, hf]
        simp [specUpd, hi, hpd]
        exact fun h => absurd (beq_iff_eq.mp hpd) h
      · rw [if_neg hq]
        cases hg : acc.find? (fun e => e.property == q) with
        | none => rfl
        | some x =>
          have hxq := List.find?_some hg
          have hxd : (x.property == d.property) = false :=
            beq_eq_false_iff_ne.mpr (by
              rw [beq_iff_eq.mp hxq]
              exact fun h => hq h.symm)
          simp [hxd]
          exact fun h => absurd h (beq_eq_false_iff_ne.mp hxd)
    · have hi' : (d.important && !existing.important) = false := Bool.not_eq_true _ ▸ hi
      rw [dedupStep_keep hf hi']
      by_cases hq : d.property = q
      · subst hq
        rw [if_pos rfl, hf]
        simp [specUpd, hi']
      · rw [if_neg hq]

theorem keptFrom_cons (init : Option Declaration) (d : Declaration)
    (ds : List Declaration) (q : String) :
    keptFrom init (d :: ds) q
    = if d.property = q then keptFrom (specUpd init d) ds q
      else keptFrom init ds q := by
  unfold keptFrom
  by_cases h : d.property = q
  · rw [if_pos h, List.filter_cons_of_pos (by simp [h]), List.foldl_cons]
  · rw [if_neg h, List.filter_cons_of_neg (by simp [h])]

theorem filterMap_find?_self : ∀ (acc : List Declaration), (propsOf acc).Nodup →
    (propsOf acc).filterMap (fun q => acc.find? (fun e => e.property == q)) = acc
  | [], _ => rfl
  | a :: acc, h => by
    have h' : (a.property :: propsOf acc).Nodup := by simpa [propsOf] using h
    obtain ⟨hna, hnd⟩ := List.nodup_cons.mp h'
    show (a.property :: propsOf acc).filterMap
        (fun q => (a :: acc).find? (fun e => e.property == q)) = a :: acc
    have hhead : (a :: acc).find? (fun e => e.property == a.property) = some a :=
      List.find?_cons_of_pos _ (by simp)
    simp only [List.filterMap_cons, hhead]
    have hstep : ∀ q ∈ propsOf acc,
        (a :: acc).find? (fun e => e.property == q)
        = acc.find? (fun e => e.property == q) := by
      intro q hqm
      have hne : (a.property == q) = false :=
        beq_eq_false_iff_ne.mpr (fun hh => hna (hh ▸ hqm))
      exact List.find?_cons_of_neg _ (by simp [hne])
    rw [List.filterMap_congr hstep]
    rw [filterMap_find?_self acc hnd]

theorem foldl_dedupStep_spec : ∀ (ds acc : List Declaration), (propsOf acc).Nodup →
    ds.foldl dedupStep acc
    = (ds.foldl addProp (propsOf acc)).filterMap
        (fun q => keptFrom (acc.find? (fun e => e.property == q)) ds q)
  | [], acc, h => by
    simpa [keptFrom] using (filterMap_find?_self acc h).symm
  | d :: ds, acc, h => by
    have h' : (propsOf (dedupStep acc d)).Nodup := by
      rw [propsOf_dedupStep]
      exact nodup_addProp d h
    rw [List.foldl_cons, foldl_dedupStep_spec ds (dedupStep acc d) h',
      propsOf_dedupStep, List.foldl_cons]
    congr 1
    funext q
    rw [keptFrom_cons, find?_dedupStep]
    by_cases hq : d.property = q
    · rw [if_pos hq, if_pos hq]
    · rw [if_neg hq, if_neg hq]

theorem foldl_dedupStep_nodup_id : ∀ (ds acc : List Declaration),
    (propsOf (acc ++ ds)).Nodup → ds.foldl dedupStep acc = acc ++ ds
  | [], acc, _ => by simp
  | d :: ds, acc, h => by
    have h' : (propsOf acc ++ d.property :: propsOf ds).Nodup := by
      simpa [propsOf] using h
    have hdna : d.property ∉ propsOf acc := by
      intro hm
      exact ((List.nodup_append.mp h').2.2 hm) (List.mem_cons_self _ _)
    have hfind : acc.find? (fun e => e.property == d.property) = none := by
      rw [List.find?_eq_none]
      intro e he hbe
      exact hdna (List.mem_map.mpr ⟨e, he, beq_iff_eq.mp hbe⟩)
    rw [List.foldl_cons, dedupStep_none hfind,
      foldl_dedupStep_nodup_id ds (acc ++ [d]) (by simpa [propsOf] using h)]
    simp

theorem dedupDecls_idem (ds : List Declaration) :
    deduplicateDeclarations (deduplicateDeclarations ds) = deduplicateDeclarations ds := by
  have hnd : (propsOf (deduplicateDeclarations ds)).Nodup := by
    show (propsOf (ds.foldl dedupStep [])).Nodup
    rw [propsOf_foldl_dedupStep]
    exact nodup_foldl_addProp ds [] List.nodup_nil
  have h := foldl_dedupStep_nodup_id (deduplicateDeclarations ds) [] (by simpa using hnd)
  simpa [deduplicateDeclarations] using h

theorem dedupRulesAux_key_not_seen : ∀ (rs : List Rule) (seen : List String),
    ∀ r' ∈ dedupRulesAux seen rs, ruleKey r' ∉ seen
  | [], _, r', h => absurd h (List.not_mem_nil r')
  | r :: rs, seen, r', h => by
    unfold dedupRulesAux at h
    by_cases hc : seen.contains (ruleKey r) = true
    · rw [if_pos hc] at h
      exact dedupRulesAux_key_not_seen rs seen r' h
    · rw [if_neg hc] at h
      rcases List.mem_cons.mp h with heq | hmem
      · subst heq
        exact fun hm => hc (contains_iff_memStr.mpr hm)
      · intro hm
        exact dedupRulesAux_key_not_seen rs (ruleKey r :: seen) r' hmem
          (List.mem_cons_of_mem _ hm)
  
theorem dedupRulesAux_keys_nodup : ∀ (rs : List Rule) (seen : List String),
    ((dedupRulesAux seen rs).map ruleKey).Nodup
  | [], _ => List.nodup_nil
  | r :: rs, seen => by
    unfold dedupRulesAux
    by_cases hc : seen.contains (ruleKey r) = true
    · rw [if_pos hc]
      exact dedupRulesAux_keys_nodup rs seen
    · rw [if_neg hc]
      simp only [List.map_cons]
      rw [List.nodup_cons]
      refine ⟨?_, dedupRulesAux_keys_nodup rs (ruleKey r :: seen)⟩
      intro hm
      obtain ⟨r'', hr'', heq⟩ := List.mem_map.mp hm
      exact dedupRulesAux_key_not_seen rs (ruleKey r :: seen) r'' hr''
        (by rw [heq]; exact List.mem_cons_self _ _)

theorem dedupRulesAux_decls_dedup : ∀ (rs : List Rule) (seen : List String),
    ∀ r' ∈ dedupRulesAux seen rs,
      deduplicateDeclarations r'.declarations = r'.declarations
  | [], _, r', h => absurd h (List.not_mem_nil r')
  | r :: rs, seen, r', h => by
    unfold dedupRulesAux at h
    by_cases hc : seen.contains (ruleKey r) = true
    · rw [if_pos hc] at h
      exact dedupRulesAux_decls_dedup rs seen r' h
    · rw [if_neg hc] at h
      rcases List.mem_cons.mp h with heq | hmem
      · subst heq
        exact dedupDecls_idem r.declarations
      · exact dedupRulesAux_decls_dedup rs (ruleKey r :: seen) r' hmem

theorem dedupRulesAux_id : ∀ (rs : List Rule) (seen : List String),
    (rs.map ruleKey).Nodup →
    (∀ r ∈ rs, deduplicateDeclarations r.declarations = r.declarations) →
    (∀ r ∈ rs, ruleKey r ∉ seen) →
    dedupRulesAux seen rs = rs
  | [], _, _, _, _ => rfl
  | r :: rs, seen, hn, hd, hs => by
    have hn' : (ruleKey r ∉ rs.map ruleKey) ∧ (rs.map ruleKey).Nodup :=
      List.nodup_cons.mp (by simpa using hn)
    unfold dedupRulesAux
    rw [if_neg (fun hcc => (hs r (List.mem_cons_self _ _)) (contains_iff_memStr.mp hcc))]
    have hkey : deduplicateDeclarations r.declarations = r.declarations :=
      hd r (List.mem_cons_self _ _)
    have hhead : { r with declarations := deduplicateDeclarations r.declarations } = r := by
      rw [hkey]
    rw [hhead, dedupRulesAux_id rs (ruleKey r :: seen) hn'.2
      (fun r' h => hd r' (List.mem_cons_of_mem _ h)) ?_]
    intro r' h hm
    rcases List.mem_cons.mp hm with heq | hmem
    · exact hn'.1 (heq ▸ List.mem_map.mpr ⟨r', h, rfl⟩)
    · exact hs r' (List.mem_cons_of_mem _ h) hmem

theorem truthy_find?_none {extra : List Rule} {d : Rule}
    (h : ∀ r ∈ extra, mqTruthy r.mediaQuery = true) :
    extra.find? (unconditionalMatch d) = none := by
  rw [List.find?_eq_none]
  intro m hm hu
  unfold unconditionalMatch at hu
  rw [h m hm] at hu
  simp at hu

theorem truthy_snoc {extra : List Rule} {r0 : Rule}
    (h : ∀ r ∈ extra, mqTruthy r.mediaQuery = true)
    (h0 : mqTruthy r0.mediaQuery = true) :
    ∀ r ∈ extra ++ [r0], mqTruthy r.mediaQuery = true := by
  intro r hr
  rcases List.mem_append.mp hr with hr | hr
  · exact h r hr
  · rw [List.mem_singleton.mp hr]
    exact h0

theorem mq768_truthy : mqTruthy (some "(min-width: 768px)") = true := by decide

theorem combineAux_cons_found {combined : List Rule} {d m : Rule} (ds : List Rule)
    (hf : combined.find? (unconditionalMatch d) = some m) :
    combineAux combined (d :: ds)
      = if (declDiff d.declarations m.declarations).length > 0 then
          combineAux (combined ++
            [{ d with declarations := declDiff d.declarations m.declarations,
                      mediaQuery := some "(min-width: 768px)" }]) ds
        else combineAux combined ds := by
  have hany : combined.any (unconditionalMatch d) = true :=
    List.any_eq_true.mpr ⟨m, List.mem_of_find?_eq_some hf, List.find?_some hf⟩
  conv_lhs => rw [combineAux]
  rw [hany, if_pos rfl, hf]

theorem combineAux_cons_notfound {combined : List Rule} {d : Rule} (ds : List Rule)
    (hf : combined.find? (unconditionalMatch d) = none) :
    combineAux combined (d :: ds)
      = combineAux (combined ++ [{ d with mediaQuery := some "(min-width: 768px)" }]) ds := by
  have hany : combined.any (unconditionalMatch d) = false :=
    List.any_eq_false.mpr (fun x hx => List.find?_eq_none.mp hf x hx)
  conv_lhs => rw [combineAux]
  rw [hany, if_neg (by simp)]

theorem combineAux_spec : ∀ (des base extra : List Rule),
    (∀ r ∈ extra, mqTruthy r.mediaQuery = true) →
    combineAux (base ++ extra) des
      = (base ++ extra) ++ des.flatMap (specDesktopDelta base)
  | [], base, extra, h => by
    simp [combineAux]
  | d :: ds, base, extra, h => by
    have hfa : (base ++ extra).find? (unconditionalMatch d)
        = base.find? (unconditionalMatch d) := by
      rw [List.find?_append, truthy_find?_none h, Option.or_none]
    cases hfb : base.find? (unconditionalMatch d) with
    | some m =>
      rw [combineAux_cons_found ds (hfa.trans hfb)]
      by_cases hlen : (declDiff d.declarations m.declarations).length > 0
      · have hie : (declDiff d.declarations m.declarations).isEmpty = false := by
          cases hd2 : declDiff d.declarations m.declarations with
          | nil => rw [hd2] at hlen; simp at hlen
          | cons a b => rfl
        have hIH := combineAux_spec ds base
          (extra ++
            [{ d with declarations := declDiff d.declarations m.declarations,
                      mediaQuery := some "(min-width: 768px)" }])
          (truthy_snoc h mq768_truthy)
        rw [if_pos hlen, List.append_assoc, hIH, List.flatMap_cons]
        have hdelta : specDesktopDelta base d
            = [{ d with declarations := declDiff d.declarations m.declarations,
                        mediaQuery := some "(min-width: 768px)" }] := by
          unfold specDesktopDelta
          rw [hfb]
          simp [hie]
        rw [hdelta]
        simp
      · have heqnil : declDiff d.declarations m.declarations = [] :=
          List.length_eq_zero.mp (by omega)
        rw [if_neg hlen, combineAux_spec ds base extra h, List.flatMap_cons]
        have hdelta : specDesktopDelta base d = [] := by
          unfold specDesktopDelta
          rw [hfb]
          simp [heqnil]
        rw [hdelta]
        simp
    | none =>
      have hIH := combineAux_spec ds base
        (extra ++ [{ d with mediaQuery := some "(min-width: 768px)" }])
        (truthy_snoc h mq768_truthy)
      rw [combineAux_cons_notfound ds (hfa.trans hfb), List.append_assoc, hIH,
        List.flatMap_cons]
      have hdelta : specDesktopDelta base d
          = [{ d with mediaQuery := some "(min-width: 768px)" }] := by
        unfold specDesktopDelta
        rw [hfb]
      rw [hdelta]
      simp

theorem combineRules_spec (mob des : List Rule) :
    combineRules mob des = mob ++ des.flatMap (specDesktopDelta mob) := by
  have h := combineAux_spec des mob [] (fun r hr => absurd hr (List.not_mem_nil r))
  simpa [combineRules] using h




theorem processRule_nonempty {o : ParserOptions} {mq : Option String}
    {p : Option CTSel} {b : CTBlock} {r : Rule}
    (h : processRule o mq p b = some r) : r.declarations ≠ [] := by
  cases p with
  | none => exact absurd h (by simp [processRule])
  | some prel =>
    cases b with
    | noBlock => exact absurd h (by simp [processRule])
    | block cs =>
      simp only [processRule] at h
      split at h
      · exact absurd h (by simp)
      · split at h
        · exact absurd h (by simp)
        · next hlen =>
          injection h with h2
          subst h2
          intro hnil
          have hnil2 : processDeclarations o cs = [] := hnil
          simp only [hnil2] at hlen
          simp at hlen

theorem processFontFace_nonempty {o : ParserOptions} {b : CTBlock} {r : Rule}
    (h : processFontFace o b = some r) : r.declarations ≠ [] := by
  cases b with
  | noBlock => exact absurd h (by simp [processFontFace])
  | block cs =>
    simp only [processFontFace] at h
    split at h
    · exact absurd h (by simp)
    · next hlen =>
      injection h with h2
      subst h2
      intro hnil
      have hnil2 : processDeclarations o cs = [] := hnil
      simp only [hnil2] at hlen
      simp at hlen

mutual
theorem walkNode_nonempty (o : ParserOptions) (mq : Option String) :
    ∀ n, ∀ r ∈ walkNode o mq n, r.declarations ≠ []
  | .rule p b, r, hr => by
    unfold walkNode at hr
    cases hp : processRule o mq p b with
    | none =>
      rw [hp] at hr
      simp at hr
    | some r0 =>
      rw [hp] at hr
      simp at hr
      subst hr
      exact processRule_nonempty hp
  | .atrule name p b, r, hr => by
    unfold walkNode at hr
    by_cases hm : (name == "media") = true
    · rw [if_pos hm] at hr
      cases b with
      | noBlock => exact absurd hr (List.not_mem_nil r)
      | block cs => exact walkForest_nonempty o (some (genMediaOpt p)) cs r hr
    · rw [if_neg hm] at hr
      by_cases hf : (name == "font-face") = true
      · rw [if_pos hf] at hr
        cases hp : processFontFace o b with
        | none =>
          rw [hp] at hr
          simp at hr
        | some r0 =>
          rw [hp] at hr
          simp at hr
          subst hr
          exact processFontFace_nonempty hp
      · rw [if_neg hf] at hr
        exact absurd hr (List.not_mem_nil r)
  | .decl p v i, r, hr => absurd hr (List.not_mem_nil r)
  | .node b, r, hr => by
    unfold walkNode at hr
    cases b with
    | noBlock => exact absurd hr (List.not_mem_nil r)
    | block cs => exact walkForest_nonempty o mq cs r hr
theorem walkForest_nonempty (o : ParserOptions) (mq : Option String) :
    ∀ f, ∀ r ∈ walkForest o mq f, r.declarations ≠ []
  | .nil, r, hr => absurd hr (List.not_mem_nil r)
  | .cons c cs, r, hr => by
    unfold walkForest at hr
    rcases List.mem_append.mp hr with h | h
    · exact walkNode_nonempty o mq c r h
    · exact walkForest_nonempty o mq cs r h
end

theorem foldl_dedupStep_length : ∀ (ds acc : List Declaration),
    acc.length ≤ (ds.foldl dedupStep acc).length
  | [], _ => Nat.le_refl _
  | d :: ds, acc => by
    refine Nat.le_trans ?_ (foldl_dedupStep_length ds (dedupStep acc d))
    cases hf : acc.find? (fun e => e.property == d.property) with
    | none =>
      rw [dedupStep_none hf]
      simp
    | some ex =>
      by_cases hi : (d.important && !ex.important) = true
      · rw [dedupStep_replace hf hi]
        simp
      · rw [dedupStep_keep hf (Bool.not_eq_true _ ▸ hi)]

theorem dedupDecls_ne_nil {ds : List Declaration} (h : ds ≠ []) :
    deduplicateDeclarations ds ≠ [] := by
  cases ds with
  | nil => exact absurd rfl h
  | cons d ds =>
    intro hnil
    have h1 : dedupStep [] d = [d] := dedupStep_none rfl
    have hlen := foldl_dedupStep_length ds (dedupStep [] d)
    rw [h1] at hlen
    have h2 : deduplicateDeclarations (d :: ds) = ds.foldl dedupStep [d] := by
      unfold deduplicateDeclarations
      rw [List.foldl_cons, h1]
    rw [h2] at hnil
    rw [hnil] at hlen
    simp at hlen

theorem dedupRulesAux_mem : ∀ (rs : List Rule) (seen : List String) (r' : Rule),
    r' ∈ dedupRulesAux seen rs →
    ∃ r ∈ rs, r' = { r with declarations := deduplicateDeclarations r.declarations }
  | [], _, r', h => absurd h (List.not_mem_nil r')
  | r :: rs, seen, r', h => by
    unfold dedupRulesAux at h
    by_cases hc : seen.contains (ruleKey r) = true
    · rw [if_pos hc] at h
      obtain ⟨r0, hr0, heq⟩ := dedupRulesAux_mem rs seen r' h
      exact ⟨r0, List.mem_cons_of_mem _ hr0, heq⟩
    · rw [if_neg hc] at h
      rcases List.mem_cons.mp h with heq | hmem
      · exact ⟨r, List.mem_cons_self _ _, heq⟩
      · obtain ⟨r0, hr0, heq⟩ := dedupRulesAux_mem rs (ruleKey r :: seen) r' hmem
        exact ⟨r0, List.mem_cons_of_mem _ hr0, heq⟩

/-! ## Claim theorems -/

/-- C1 (code evaluation at the failing input): the rule `a:hover{color:red}`
is dropped by parseCSS even with `includeHoverStates = true`, because
`':hover'` is a member of EXCLUDED_SELECTORS, which shouldExcludeSelector
checks before ever consulting the option; with the option off the example of
the claim does yield the empty rule set. -/
theorem hover_dropped_regardless_of_option :
    parseCSS ⟨false, false, false, true⟩ astHoverRed = []
    ∧ parseCSS defaultOptions astHoverRed = []
    ∧ shouldExcludeSelector ⟨false, false, false, true⟩ "a:hover" = true
    ∧ EXCLUDED_SELECTORS.contains ":hover" = true := by decide

/-- C2: filterCSSRules retains every rule whose selector is exactly
`@font-face`, `:root`, `html`, `body` or `*`, for any above-fold selector
set (including the empty one). -/
theorem always_critical_selectors_kept (rules : List Rule) (afs : List String)
    (r : Rule) (hr : r ∈ rules)
    (hs : r.selector = "@font-face" ∨ r.selector = ":root" ∨ r.selector = "html"
          ∨ r.selector = "body" ∨ r.selector = "*") :
    r ∈ filterCSSRules rules afs := by
  refine List.mem_filter.mpr ⟨hr, ?_⟩
  rcases hs with h | h | h | h | h <;> simp [keepRule, h]

/-- Witness for C2 at a concrete rule set and the empty signal set. -/
theorem always_critical_selectors_kept_witness :
    (⟨"body", [⟨"color", "red", false⟩], none⟩ : Rule) ∈
      filterCSSRules [⟨"body", [⟨"color", "red", false⟩], none⟩] [] :=
  always_critical_selectors_kept _ [] _ (by decide)
    (Or.inr (Or.inr (Or.inr (Or.inl rfl))))

/-- C7: parseCSS at the string level is total by construction; empty or
whitespace-only input yields the empty rule set, a thrown external parse
error is caught and degrades to the empty rule set, and a successful parse
yields either the empty rule set or the walked rules. -/
theorem parseCSS_total_degrades (o : ParserOptions) (css : String)
    (ext : Except String CTNode) :
    (jsTrim css = "" → parseCSSstr o css ext = [])
    ∧ (∀ e, parseCSSstr o css (Except.error e) = [])
    ∧ (∀ ast, parseCSSstr o css (Except.ok ast) = [] ∨
         parseCSSstr o css (Except.ok ast) = parseCSS o ast) := by
  refine ⟨?_, ?_, ?_⟩
  · intro h
    simp [parseCSSstr, h]
  · intro e
    unfold parseCSSstr
    split <;> rfl
  · intro ast
    unfold parseCSSstr
    split
    · exact Or.inl rfl
    · exact Or.inr rfl

/-- Witness for C7 at whitespace-only input. -/
theorem parseCSS_total_degrades_witness :
    parseCSSstr defaultOptions "   " (Except.ok astXRed) = [] :=
  (parseCSS_total_degrades defaultOptions "   " (Except.ok astXRed)).1 (by decide)

/-- C8 counterexample: the very style rule that parses to `.x{color:red}` at
the top level disappears when nested inside an `@supports` at-rule — the
walker's at-rule branch handles only `media` and `font-face` and never
recurses into other at-rules' children. -/
theorem supports_nested_rule_dropped :
    parseCSS defaultOptions astSupportsNested = []
    ∧ parseCSS defaultOptions astXRed
      = [⟨".x", [⟨"color", "red", false⟩], none⟩] := by decide

/-- C8 (amended): nodes other than style rules and at-rules are passed
through (traversal continues into their children producing no rule of their
own), while an at-rule whose name is neither `media` nor `font-face`
produces nothing and its children are not traversed. -/
theorem walk_passthrough_containers (o : ParserOptions) (mq : Option String) :
    (∀ cs, walkNode o mq (.node (.block cs)) = walkForest o mq cs)
    ∧ walkNode o mq (.node .noBlock) = []
    ∧ (∀ p v i, walkNode o mq (.decl p v i) = [])
    ∧ (∀ name p b, name ≠ "media" → name ≠ "font-face" →
        walkNode o mq (.atrule name p b) = []) := by
  refine ⟨fun cs => rfl, rfl, fun p v i => rfl, fun name p b hm hf => ?_⟩
  show walkNode o mq (.atrule name p b) = []
  unfold walkNode
  simp [hm, hf]

/-- Witness for C8's amended statement at the `@supports` at-rule. -/
theorem walk_passthrough_containers_witness :
    walkNode defaultOptions none
      (.atrule "supports" none (.block (.cons (ruleNodeX "red") .nil))) = [] :=
  (walk_passthrough_containers defaultOptions none).2.2.2 "supports" none
    (.block (.cons (ruleNodeX "red") .nil)) (by decide) (by decide)

/-- C10: no allow-listed property contains `shadow`, `animation` or
`transition`, and consequently parseCSS is identical under every setting of
includeShadows, includeAnimations and includeTransitions (two-run
noninterference; only includeHoverStates may influence the outcome). -/
theorem options_noninterference :
    (ALLOWED_PROPERTIES.all (fun p =>
        !(jsIncludes p "shadow") && !(jsIncludes p "animation")
        && !(jsIncludes p "transition")) = true)
    ∧ (∀ (o o' : ParserOptions) (ast : CTNode),
        o.includeHoverStates = o'.includeHoverStates →
        parseCSS o ast = parseCSS o' ast) := by
  refine ⟨by decide, fun o o' ast h => ?_⟩
  exact walkNode_opts o o' h none ast

/-- Witness for C10: flipping all three gated options leaves the parse of
`.x{color:red}` unchanged. -/
theorem options_noninterference_witness :
    parseCSS ⟨true, true, true, false⟩ astXRed = parseCSS defaultOptions astXRed :=
  options_noninterference.2 ⟨true, true, true, false⟩ defaultOptions astXRed rfl

end CritCSS

namespace CritCSS

/-- C3: combineMobileDesktopCSS keeps the mobile rules as the unchanged base
and appends, for each desktop rule, exactly what the spec describes: with an
unconditional mobile counterpart of the same selector, the desktop
declarations whose (property, value) pair differs from or is absent in the
mobile rule, under `(min-width: 768px)` (nothing when the differing set is
empty); and the claim's example combines `.x{color:red}` (mobile) with
`.x{color:blue}` (desktop) into an unconditioned red rule plus a blue rule
under `(min-width: 768px)`. -/
theorem combine_mobile_first :
    (∀ mob des : List Rule,
      combineRules mob des = mob ++ des.flatMap (specDesktopDelta mob))
    ∧ combineRules (parseCSS defaultOptions astXRed) (parseCSS defaultOptions astXBlue)
      = [⟨".x", [⟨"color", "red", false⟩], none⟩,
         ⟨".x", [⟨"color", "blue", false⟩], some "(min-width: 768px)"⟩] :=
  ⟨combineRules_spec, by decide⟩

/-- C4: deduplicateDeclarations keeps at most one declaration per property
(the surviving property list is duplicate-free), lists surviving properties
in first-occurrence order, and the kept declaration per property is the fold
of the spec's replacement rule: a later declaration replaces the kept one
exactly when the later one is important and the kept one is not. -/
theorem dedupe_declarations_spec :
    ∀ ds : List Declaration,
      deduplicateDeclarations ds = (firstProps ds).filterMap (specKept ds)
      ∧ (firstProps ds).Nodup
      ∧ propsOf (deduplicateDeclarations ds) = firstProps ds := by
  intro ds
  refine ⟨?_, nodup_foldl_addProp ds [] List.nodup_nil, propsOf_foldl_dedupStep ds []⟩
  have h := foldl_dedupStep_spec ds [] (by simp [propsOf])
  simpa [firstProps, specKept, deduplicateDeclarations, propsOf] using h

/-- C5: deduplicateRules is idempotent on every RuleSet. -/
theorem dedupRules_idempotent (R : List Rule) :
    deduplicateRules (deduplicateRules R) = deduplicateRules R := by
  show dedupRulesAux [] (deduplicateRules R) = deduplicateRules R
  apply dedupRulesAux_id
  · exact dedupRulesAux_keys_nodup R []
  · exact fun r h => dedupRulesAux_decls_dedup R [] r h
  · intro r h hm
    exact absurd hm (List.not_mem_nil _)

/-- C9: every rule produced by parseCSS has a non-empty declaration list;
filterCSSRules only selects existing rules; deduplicateRules and
combineRules preserve non-emptiness of declaration lists. -/
theorem rules_nonempty_invariant :
    (∀ (o : ParserOptions) (ast : CTNode), ∀ r ∈ parseCSS o ast, r.declarations ≠ [])
    ∧ (∀ (rules : List Rule) (afs : List String), ∀ r ∈ filterCSSRules rules afs, r ∈ rules)
    ∧ (∀ rules : List Rule, (∀ r ∈ rules, r.declarations ≠ []) →
        ∀ r ∈ deduplicateRules rules, r.declarations ≠ [])
    ∧ (∀ mob des : List Rule, (∀ r ∈ mob, r.declarations ≠ []) →
        (∀ r ∈ des, r.declarations ≠ []) →
        ∀ r ∈ combineRules mob des, r.declarations ≠ []) := by
  refine ⟨fun o ast => walkNode_nonempty o none ast, ?_, ?_, ?_⟩
  · intro rules afs r hr
    exact (List.mem_filter.mp hr).1
  · intro rules hne r hr
    obtain ⟨r0, hr0, heq⟩ := dedupRulesAux_mem rules [] r hr
    rw [heq]
    exact dedupDecls_ne_nil (hne r0 hr0)
  · intro mob des hm hd r hr
    rw [combineRules_spec] at hr
    rcases List.mem_append.mp hr with h | h
    · exact hm r h
    · obtain ⟨d, hdm, hmem⟩ := List.mem_flatMap.mp h
      unfold specDesktopDelta at hmem
      cases hf : mob.find? (unconditionalMatch d) with
      | some m =>
        rw [hf] at hmem
        by_cases hie : (declDiff d.declarations m.declarations).isEmpty = true
        · simp [hie] at hmem
        · simp only [Bool.not_eq_true] at hie
          simp [hie] at hmem
          subst hmem
          intro hnil
          have hnil2 : declDiff d.declarations m.declarations = [] := hnil
          simp only [hnil2] at hie
          simp at hie
      | none =>
        rw [hf] at hmem
        simp at hmem
        subst hmem
        exact hd d hdm

/-- Witness for C9: the rule deduplicateRules produces from a rule set with
a repeated property keeps a non-empty declaration list. -/
theorem rules_nonempty_invariant_witness :
    (⟨".x", [⟨"color", "blue", true⟩], none⟩ : Rule).declarations ≠ [] :=
  rules_nonempty_invariant.2.2.1
    [⟨".x", [⟨"color", "red", false⟩, ⟨"color", "blue", true⟩], none⟩]
    (by decide) _ (by decide)

end CritCSS
